import Mathlib

/-!
Chain engine of `blockchain.js`.

A shallow embedding of the `Block` and `Blockchain` classes of
`src/blockchain.js`, and of the payload overwrite of `src/index.js`
(`POST /tamper/:blockIndex`), followed by the properties of the chain
engine: block construction, proof-of-work mining, append, and the
two-part validation walk.

Conventions of the embedding.

* `SHA256(...).toString()` (crypto-js) and `JSON.stringify` are library
  functions: they are the fields of a `Host`, and every general theorem
  holds for every host. `SampleBC.Sha256` implements SHA-256 itself, for the
  statements that evaluate the code on concrete inputs.
* A JavaScript string is a `String`; `+` between a string and a value is
  concatenation with the value's `ToString` text.
* A `while` loop that may run forever takes a bound on the number of
  iterations of its body and answers `Run.timeout` when the bound is used up.
* A thrown exception is `Run.raise`.
-/

namespace SampleBC

/-- The library functions called by `blockchain.js`. `sha256 s` is
`SHA256(s).toString()`, `stringify d` is the text that `JSON.stringify(d)`
contributes to a string concatenation, and `text s` is the payload value that
is the JavaScript string `s`. -/
structure Host (Data : Type) where
  sha256 : String → String
  stringify : Data → String
  text : String → Data

/-- The value read from the `nonce` property of a block: `undefined` while the
constructor has not yet assigned it, a number afterwards. -/
inductive JsNum where
  | undefined
  | nan
  | num (n : Nat)
  deriving DecidableEq, Repr

namespace JsNum

/-- `ToString` of the value, as string concatenation applies it. Whole numbers
below `10 ^ 21` print in decimal. -/
def render : JsNum → String
  | undefined => "undefined"
  | nan => "NaN"
  | num n => toString n

/-- The value stored by `x++`. `undefined + 1` is `NaN`; counting up from `0`
in double precision is exact up to `2 ^ 53`, where `2 ^ 53 + 1` rounds back to
`2 ^ 53`. -/
def incr : JsNum → JsNum
  | undefined => nan
  | nan => nan
  | num n => if n < 2 ^ 53 then num (n + 1) else num n

end JsNum

/-- Outcome of running a method: a normal return, a thrown exception, or the
iteration bound of a loop used up before the loop ended. -/
inductive Run (α : Type) where
  | done (a : α)
  | raise (error : String)
  | timeout
  deriving DecidableEq, Repr

/-- The fields of a `Block` object (`blockchain.js`, lines 9-15). `timestamp`
is the whole number of milliseconds of `Date.now()`, which prints in decimal
(as every whole number below `10 ^ 21` does). -/
structure Block (Data : Type) where
  timestamp : Nat
  data : Data
  previousHash : String
  hash : String
  nonce : JsNum
  deriving DecidableEq, Repr

/-- `s.substring(0, n)` for a whole number `n`: the first `n` characters of `s`,
or all of `s` when it is shorter. -/
def substring0 (s : String) (n : Nat) : String :=
  ⟨s.data.take n⟩

/-- `Array(len).join(sep)` for a whole number `len`: an array of `len` empty
slots joins to `len - 1` copies of `sep`; a length of `2 ^ 32` or more is a
`RangeError`. -/
def arrayJoin (len : Nat) (sep : String) : Run String :=
  if 2 ^ 32 ≤ len then .raise "RangeError"
  else .done (String.join (List.replicate (len - 1) sep))

/-- The string of `n` zero characters, the proof-of-work target at
difficulty `n`. -/
def zeros (n : Nat) : String :=
  ⟨List.replicate n '0'⟩

namespace Block

variable {Data : Type}

/-- The digest of `previousHash + timestamp + JSON.stringify(data) + nonce`
(`blockchain.js`, line 21), as a function of the four properties it reads. -/
def digest (h : Host Data) (previousHash : String) (timestamp : Nat) (data : Data)
    (nonce : JsNum) : String :=
  h.sha256 (previousHash ++ toString timestamp ++ h.stringify data ++ nonce.render)

/-- `calculateHash()` (`blockchain.js`, lines 20-22). -/
def calculateHash (h : Host Data) (b : Block Data) : String :=
  digest h b.previousHash b.timestamp b.data b.nonce

/-- `new Block(timestamp, data, previousHash)` (`blockchain.js`, lines 9-15).
Line 13 calls `calculateHash()` before line 14 assigns `nonce`, so the call
reads `this.nonce` as `undefined`. -/
def new (h : Host Data) (timestamp : Nat) (data : Data) (previousHash : String) :
    Block Data :=
  { timestamp := timestamp
    data := data
    previousHash := previousHash
    hash := digest h previousHash timestamp data JsNum.undefined
    nonce := JsNum.num 0 }

/-- One run of the loop body of `mineBlock` (`blockchain.js`, lines 31-32):
`this.nonce++`, then `this.hash = this.calculateHash()`. -/
def mineStep (h : Host Data) (b : Block Data) : Block Data :=
  let b1 := { b with nonce := b.nonce.incr }
  { b1 with hash := calculateHash h b1 }

/-- `mineBlock(difficulty)` (`blockchain.js`, lines 29-35) with at most `fuel`
runs of the loop body. The loop condition is evaluated before each run. -/
def mineBlock (h : Host Data) (difficulty : Nat) : Nat → Block Data → Run (Block Data)
  | fuel, b =>
    match arrayJoin (difficulty + 1) "0" with
    | .raise e => .raise e
    | .timeout => .timeout
    | .done target =>
      if substring0 b.hash difficulty ≠ target then
        match fuel with
        | 0 => .timeout
        | fuel + 1 => mineBlock h difficulty fuel (mineStep h b)
      else .done b

end Block

/-- The fields of a `Blockchain` object (`blockchain.js`, lines 43-46). -/
structure Blockchain (Data : Type) where
  chain : List (Block Data)
  difficulty : Nat
  deriving DecidableEq, Repr

/-- The object returned by `isChainValid()` (`blockchain.js`, lines 83-88,
93-98 and 102). -/
inductive Report (Data : Type) where
  | valid
  | invalid (message : String) (invalidBlockIndex : Nat) (invalidBlock : Block Data)
  deriving DecidableEq, Repr

/-- Message of the first check of `isChainValid` (`blockchain.js`, line 85). -/
def hashInvalidMessage : String :=
  "Data tampering detected. The hash of a block is invalid."

/-- Message of the second check of `isChainValid` (`blockchain.js`, line 95). -/
def brokenLinkMessage : String :=
  "Chain is broken. A block's previousHash does not match the hash of the preceding block."

namespace Blockchain

variable {Data : Type}

/-- `createGenesisBlock()` (`blockchain.js`, lines 51-53); `now` is the value of
`Date.now()`. -/
def createGenesisBlock (h : Host Data) (now : Nat) : Block Data :=
  Block.new h now (h.text "Genesis Block") "0"

/-- `new Blockchain()` (`blockchain.js`, lines 43-46). -/
def new (h : Host Data) (now : Nat) : Blockchain Data :=
  { chain := [createGenesisBlock h now], difficulty := 2 }

/-- `getLatestBlock()` (`blockchain.js`, lines 58-60); `none` is `undefined`,
the value of an index outside the array. -/
def getLatestBlock (c : Blockchain Data) : Option (Block Data) :=
  c.chain[c.chain.length - 1]?

/-- `addBlock(newData)` (`blockchain.js`, lines 66-71); `now` is the value of
`Date.now()` and `fuel` bounds the mining loop. Reading `.hash` of `undefined`
throws a `TypeError`. -/
def addBlock (h : Host Data) (fuel : Nat) (now : Nat) (newData : Data)
    (c : Blockchain Data) : Run (Blockchain Data) :=
  match c.getLatestBlock with
  | none => .raise "TypeError"
  | some latest =>
    match (Block.new h now newData latest.hash).mineBlock h c.difficulty fuel with
    | .done newBlock => .done { c with chain := c.chain ++ [newBlock] }
    | .raise e => .raise e
    | .timeout => .timeout

/-- The `for` loop of `isChainValid()` (`blockchain.js`, lines 77-100) from
index `i` on, with `n` indices left before `chain.length`. -/
def validateFrom (h : Host Data) (chain : List (Block Data)) : Nat → Nat → Run (Report Data)
  | 0, _ => .done .valid
  | n + 1, i =>
    match chain[i]?, chain[i - 1]? with
    | some currentBlock, some previousBlock =>
      if currentBlock.hash ≠ currentBlock.calculateHash h then
        .done (.invalid hashInvalidMessage i currentBlock)
      else if currentBlock.previousHash ≠ previousBlock.hash then
        .done (.invalid brokenLinkMessage i currentBlock)
      else validateFrom h chain n (i + 1)
    | _, _ => .raise "TypeError"

/-- `isChainValid()` (`blockchain.js`, lines 76-103): the loop runs for
`i = 1, ..., chain.length - 1`. -/
def isChainValid (h : Host Data) (c : Blockchain Data) : Run (Report Data) :=
  validateFrom h c.chain (c.chain.length - 1) 1

/-- Neither check of the loop body of `isChainValid()` fires at index `i`
(`blockchain.js`, lines 82 and 92). -/
def checksPass (h : Host Data) (chain : List (Block Data)) (i : Nat) : Prop :=
  ∀ cur prev, chain[i]? = some cur → chain[i - 1]? = some prev →
    cur.hash = cur.calculateHash h ∧ cur.previousHash = prev.hash

instance checksPassDecidable (h : Host Data) (chain : List (Block Data)) (i : Nat) :
    Decidable (checksPass h chain i) :=
  match hc : chain[i]?, hp : chain[i - 1]? with
  | some cur, some prev =>
    if hok : cur.hash = cur.calculateHash h ∧ cur.previousHash = prev.hash then
      isTrue (fun c p hc1 hp1 => by
        rw [hc] at hc1
        rw [hp] at hp1
        cases hc1
        cases hp1
        exact hok)
    else isFalse (fun hall => hok (hall cur prev hc hp))
  | none, _ => isTrue (fun c p hc1 _ => by
      rw [hc] at hc1
      cases hc1)
  | _, none => isTrue (fun c p _ hp1 => by
      rw [hp] at hp1
      cases hp1)

/-- The assignment `chain[blockIndex].data = newData` of the tamper endpoint
(`index.js`, line 68), which the endpoint reaches only for an index inside the
chain and a payload that is not falsy. No other property of the block is
touched. -/
def tamper (c : Blockchain Data) (blockIndex : Nat) (newData : Data) : Blockchain Data :=
  match c.chain[blockIndex]? with
  | some b => { c with chain := c.chain.set blockIndex { b with data := newData } }
  | none => c

/-- The block `b` after `b.previousHash = value; b.hash = b.calculateHash()`. -/
def relinked (h : Host Data) (b : Block Data) (value : String) : Block Data :=
  let b1 := { b with previousHash := value }
  { b1 with hash := b1.calculateHash h }

/-- The out-of-band edit of the broken-link scenario: `chain[i].previousHash`
is overwritten with `value`, then `chain[i].hash` is set to `calculateHash()` of
the edited block. -/
def relink (h : Host Data) (c : Blockchain Data) (i : Nat) (value : String) :
    Blockchain Data :=
  match c.chain[i]? with
  | some b => { c with chain := c.chain.set i (relinked h b value) }
  | none => c

end Blockchain

/-! ## The functions of the host, implemented

SHA-256 (FIPS 180-4) over the UTF-8 bytes of a string, printed in lower-case
hexadecimal as crypto-js prints a digest, and `JSON.stringify` on payloads
that are strings. They make the engine executable on concrete inputs. -/

namespace Sha256

/-- UTF-8 bytes of a character. -/
def utf8 (c : Char) : List Nat :=
  let n := c.toNat
  if n < 0x80 then [n]
  else if n < 0x800 then [0xC0 + n / 0x40, 0x80 + n % 0x40]
  else if n < 0x10000 then [0xE0 + n / 0x1000, 0x80 + n / 0x40 % 0x40, 0x80 + n % 0x40]
  else [0xF0 + n / 0x40000, 0x80 + n / 0x1000 % 0x40, 0x80 + n / 0x40 % 0x40, 0x80 + n % 0x40]

def rotr (x n : Nat) : Nat :=
  (x >>> n ||| x <<< (32 - n)) % 2 ^ 32

def K : List Nat :=
  [0x428a2f98, 0x71374491, 0xb5c0fbcf, 0xe9b5dba5, 0x3956c25b, 0x59f111f1, 0x923f82a4, 0xab1c5ed5,
   0xd807aa98, 0x12835b01, 0x243185be, 0x550c7dc3, 0x72be5d74, 0x80deb1fe, 0x9bdc06a7, 0xc19bf174,
   0xe49b69c1, 0xefbe4786, 0x0fc19dc6, 0x240ca1cc, 0x2de92c6f, 0x4a7484aa, 0x5cb0a9dc, 0x76f988da,
   0x983e5152, 0xa831c66d, 0xb00327c8, 0xbf597fc7, 0xc6e00bf3, 0xd5a79147, 0x06ca6351, 0x14292967,
   0x27b70a85, 0x2e1b2138, 0x4d2c6dfc, 0x53380d13, 0x650a7354, 0x766a0abb, 0x81c2c92e, 0x92722c85,
   0xa2bfe8a1, 0xa81a664b, 0xc24b8b70, 0xc76c51a3, 0xd192e819, 0xd6990624, 0xf40e3585, 0x106aa070,
   0x19a4c116, 0x1e376c08, 0x2748774c, 0x34b0bcb5, 0x391c0cb3, 0x4ed8aa4a, 0x5b9cca4f, 0x682e6ff3,
   0x748f82ee, 0x78a5636f, 0x84c87814, 0x8cc70208, 0x90befffa, 0xa4506ceb, 0xbef9a3f7, 0xc67178f2]

def H0 : List Nat :=
  [0x6a09e667, 0xbb67ae85, 0x3c6ef372, 0xa54ff53a, 0x510e527f, 0x9b05688c, 0x1f83d9ab, 0x5be0cd19]

/-- Message padding: a `0x80` byte, zero bytes up to 56 modulo 64, and the bit
length in 8 bytes, most significant first. -/
def pad (bytes : List Nat) : List Nat :=
  let len := bytes.length
  let zeros := (119 - len % 64) % 64
  let bits := 8 * len
  bytes ++ 0x80 :: List.replicate zeros 0 ++
    (List.range 8).map (fun i => bits / 2 ^ (8 * (7 - i)) % 256)

/-- Big-endian 32-bit words of a byte list. -/
def words : List Nat → List Nat
  | a :: b :: c :: d :: rest => (((a * 256 + b) * 256 + c) * 256 + d) :: words rest
  | _ => []

/-- The message schedule, latest word first: extends 16 words by `n` more. -/
def schedule : Nat → List Nat → List Nat
  | 0, w => w
  | n + 1, w =>
    let w2 := w.getD 1 0
    let w7 := w.getD 6 0
    let w15 := w.getD 14 0
    let w16 := w.getD 15 0
    let s0 := rotr w15 7 ^^^ rotr w15 18 ^^^ w15 >>> 3
    let s1 := rotr w2 17 ^^^ rotr w2 19 ^^^ w2 >>> 10
    schedule n (((s1 + w7 + s0 + w16) % 2 ^ 32) :: w)

structure Regs where
  a : Nat
  b : Nat
  c : Nat
  d : Nat
  e : Nat
  f : Nat
  g : Nat
  h : Nat

def round (r : Regs) (kw : Nat × Nat) : Regs :=
  let S1 := rotr r.e 6 ^^^ rotr r.e 11 ^^^ rotr r.e 25
  let ch := (r.e &&& r.f) ^^^ ((2 ^ 32 - 1 - r.e) &&& r.g)
  let t1 := r.h + S1 + ch + kw.1 + kw.2
  let S0 := rotr r.a 2 ^^^ rotr r.a 13 ^^^ rotr r.a 22
  let maj := (r.a &&& r.b) ^^^ (r.a &&& r.c) ^^^ (r.b &&& r.c)
  let t2 := S0 + maj
  { a := (t1 + t2) % 2 ^ 32, b := r.a, c := r.b, d := r.c,
    e := (r.d + t1) % 2 ^ 32, f := r.e, g := r.f, h := r.g }

def compress (hs : List Nat) (block : List Nat) : List Nat :=
  let w := (schedule 48 (words block).reverse).reverse
  let r0 : Regs := { a := hs.getD 0 0, b := hs.getD 1 0, c := hs.getD 2 0, d := hs.getD 3 0,
                     e := hs.getD 4 0, f := hs.getD 5 0, g := hs.getD 6 0, h := hs.getD 7 0 }
  let r := (K.zip w).foldl round r0
  List.zipWith (fun x y => (x + y) % 2 ^ 32) hs [r.a, r.b, r.c, r.d, r.e, r.f, r.g, r.h]

def blocks : Nat → List Nat → List Nat → List Nat
  | 0, hs, _ => hs
  | n + 1, hs, bytes => blocks n (compress hs (bytes.take 64)) (bytes.drop 64)

def hexDigit (n : Nat) : Char :=
  "0123456789abcdef".data.getD n '0'

def hexWord (w : Nat) : List Char :=
  (List.range 8).map (fun i => hexDigit (w / 16 ^ (7 - i) % 16))

/-- `SHA256(s).toString()`: the digest of the UTF-8 bytes of `s` in lower-case
hexadecimal. -/
def sha256 (s : String) : String :=
  let m := pad (s.data.flatMap utf8)
  ⟨(blocks (m.length / 64) H0 m).flatMap hexWord⟩

end Sha256

/-- Lower-case hexadecimal digits of `n`, `width` of them. -/
def hexFixed (width n : Nat) : List Char :=
  (List.range width).map (fun i => Sha256.hexDigit (n / 16 ^ (width - 1 - i) % 16))

/-- The text `JSON.stringify` writes for one character of a string. -/
def quoteChar (c : Char) : List Char :=
  if c = '"' then ['\\', '"']
  else if c = '\\' then ['\\', '\\']
  else if c.toNat = 8 then ['\\', 'b']
  else if c.toNat = 12 then ['\\', 'f']
  else if c.toNat = 10 then ['\\', 'n']
  else if c.toNat = 13 then ['\\', 'r']
  else if c.toNat = 9 then ['\\', 't']
  else if c.toNat < 32 then '\\' :: 'u' :: hexFixed 4 c.toNat
  else [c]

/-- `JSON.stringify(s)` for a string `s`: the quoted and escaped text. -/
def quoteJSON (s : String) : String :=
  ⟨'"' :: s.data.flatMap quoteChar ++ ['"']⟩

/-- The host of the running server, for payloads that are strings: SHA-256 and
`JSON.stringify`. -/
def nodeHost : Host String :=
  { sha256 := Sha256.sha256, stringify := quoteJSON, text := id }

/-- The chain of three blocks built by `new Blockchain()` at 1700000000000 ms,
`addBlock("block 11")` one millisecond later and `addBlock("block 175")` one
more millisecond later. -/
def sampleChain : Blockchain String :=
  { chain :=
      [ { timestamp := 1700000000000
          data := "Genesis Block"
          previousHash := "0"
          hash := "e83125e83526f593e575198a291eeef53076cbff36ed2b0f81c5998504ecd85b"
          nonce := JsNum.num 0 },
        { timestamp := 1700000000001
          data := "block 11"
          previousHash := "e83125e83526f593e575198a291eeef53076cbff36ed2b0f81c5998504ecd85b"
          hash := "00bd6cb005cbab3056a7ee98b6a2903c79efec01691374bda40024765a5703e7"
          nonce := JsNum.num 8 },
        { timestamp := 1700000000002
          data := "block 175"
          previousHash := "00bd6cb005cbab3056a7ee98b6a2903c79efec01691374bda40024765a5703e7"
          hash := "00543a8f43ca90985847a10e63c835af3c667e58c463c59ae9c594f7e7c9601c"
          nonce := JsNum.num 1 } ]
    difficulty := 2 }

/-- The chain built by `new Blockchain()` at 1700000000000 ms and
`addBlock("block 435")` one millisecond later. -/
def staleChain : Blockchain String :=
  { chain :=
      [ { timestamp := 1700000000000
          data := "Genesis Block"
          previousHash := "0"
          hash := "e83125e83526f593e575198a291eeef53076cbff36ed2b0f81c5998504ecd85b"
          nonce := JsNum.num 0 },
        { timestamp := 1700000000001
          data := "block 435"
          previousHash := "e83125e83526f593e575198a291eeef53076cbff36ed2b0f81c5998504ecd85b"
          hash := "000dd0b8b34877edca98c9ad717a1669382d76a0b57e023d278af134efb60be3"
          nonce := JsNum.num 0 } ]
    difficulty := 2 }

/-! ## Mining -/

theorem foldl_append_replicate_zero (n : Nat) (acc : String) :
    List.foldl (fun r s => r ++ s) acc (List.replicate n "0")
      = ⟨acc.data ++ List.replicate n '0'⟩ := by
  induction n generalizing acc with
  | zero => simp
  | succ n ih =>
    rw [List.replicate_succ, List.foldl_cons, ih]
    have : (acc ++ "0").data = acc.data ++ ['0'] := by
      rw [String.data_append]
    rw [this, List.append_assoc]
    rfl

theorem arrayJoin_zero (d : Nat) :
    arrayJoin (d + 1) "0" = if 2 ^ 32 ≤ d + 1 then .raise "RangeError" else .done (zeros d) := by
  unfold arrayJoin
  split
  · rfl
  · congr 1
    simp only [Nat.add_sub_cancel, String.join, zeros]
    rw [foldl_append_replicate_zero]
    rfl

namespace Block

variable {Data : Type}

/-- The loop of `mineBlock`, one evaluation of its condition at a time. -/
theorem mineBlock_eq (h : Host Data) (d fuel : Nat) (b : Block Data) :
    b.mineBlock h d fuel =
      if 2 ^ 32 ≤ d + 1 then .raise "RangeError"
      else if substring0 b.hash d = zeros d then .done b
      else match fuel with
        | 0 => .timeout
        | fuel + 1 => (mineStep h b).mineBlock h d fuel := by
  cases fuel <;>
  · rw [mineBlock, arrayJoin_zero]
    by_cases hr : 2 ^ 32 ≤ d + 1
    · simp only [hr, if_true]
    · by_cases ht : substring0 b.hash d = zeros d <;>
        simp only [hr, ht, if_true, if_false, ne_eq, not_true_eq_false, not_false_eq_true]

theorem mineBlock_done_target (h : Host Data) (d fuel : Nat) (b b' : Block Data)
    (hrun : b.mineBlock h d fuel = .done b') :
    substring0 b'.hash d = zeros d ∧ d + 1 < 2 ^ 32 := by
  induction fuel generalizing b with
  | zero =>
    rw [mineBlock_eq] at hrun
    split_ifs at hrun with hr ht
    · injection hrun with hb
      subst hb
      exact ⟨ht, by omega⟩
  | succ fuel ih =>
    rw [mineBlock_eq] at hrun
    split_ifs at hrun with hr ht
    · injection hrun with hb
      subst hb
      exact ⟨ht, by omega⟩
    · exact ih _ hrun

/-- A normal return of `mineBlock` leaves the block as it was (no run of the
loop body) or leaves a hash that `calculateHash()` reproduces. -/
theorem mineBlock_done_cases (h : Host Data) (d fuel : Nat) (b b' : Block Data)
    (hrun : b.mineBlock h d fuel = .done b') :
    (b' = b ∧ substring0 b.hash d = zeros d) ∨
      (substring0 b.hash d ≠ zeros d ∧ b'.hash = b'.calculateHash h) := by
  induction fuel generalizing b with
  | zero =>
    rw [mineBlock_eq] at hrun
    split_ifs at hrun with hr ht
    · injection hrun with hb
      exact Or.inl ⟨hb.symm, ht⟩
  | succ fuel ih =>
    rw [mineBlock_eq] at hrun
    split_ifs at hrun with hr ht
    · injection hrun with hb
      exact Or.inl ⟨hb.symm, ht⟩
    · refine Or.inr ⟨ht, ?_⟩
      rcases ih _ hrun with ⟨hb, _⟩ | ⟨_, hc⟩
      · rw [hb]
        rfl
      · exact hc

/-- Mining writes `nonce` and `hash` only. -/
theorem mineBlock_done_frame (h : Host Data) (d fuel : Nat) (b b' : Block Data)
    (hrun : b.mineBlock h d fuel = .done b') :
    b'.timestamp = b.timestamp ∧ b'.data = b.data ∧ b'.previousHash = b.previousHash := by
  induction fuel generalizing b with
  | zero =>
    rw [mineBlock_eq] at hrun
    split_ifs at hrun with hr ht
    · injection hrun with hb
      subst hb
      exact ⟨rfl, rfl, rfl⟩
  | succ fuel ih =>
    rw [mineBlock_eq] at hrun
    split_ifs at hrun with hr ht
    · injection hrun with hb
      subst hb
      exact ⟨rfl, rfl, rfl⟩
    · exact ih (mineStep h b) hrun

end Block

/-- A prefix of length `d` equal to the target: the string has `d` characters
at least and each of the first `d` is the zero character. -/
theorem substring0_eq_zeros_iff (s : String) (d : Nat) :
    substring0 s d = zeros d ↔ d ≤ s.length ∧ ∀ i, i < d → s.data[i]? = some '0' := by
  unfold substring0 zeros
  rw [String.ext_iff]
  show List.take d s.data = List.replicate d '0' ↔ d ≤ s.data.length ∧ _
  constructor
  · intro heq
    have hlen : d ≤ s.data.length := by
      have := congrArg List.length heq
      simp only [List.length_take, List.length_replicate] at this
      omega
    refine ⟨hlen, fun i hi => ?_⟩
    have h1 : (s.data.take d)[i]? = s.data[i]? := by
      rw [List.getElem?_take, if_pos hi]
    rw [← h1, heq]
    simp [hi]
  · rintro ⟨hlen, hall⟩
    apply List.ext_getElem?
    intro i
    by_cases hi : i < d
    · rw [List.getElem?_take, if_pos hi, hall i hi]
      simp [hi]
    · rw [List.getElem?_take, if_neg hi]
      symm
      apply List.getElem?_eq_none
      simp only [List.length_replicate]
      omega

/-! ## Validation -/

namespace Blockchain

variable {Data : Type}

/-- One iteration of the loop of `isChainValid()` at an index inside the chain. -/
theorem validateFrom_succ (h : Host Data) (chain : List (Block Data)) (n i : Nat)
    (cur prev : Block Data) (hcur : chain[i]? = some cur) (hprev : chain[i - 1]? = some prev) :
    validateFrom h chain (n + 1) i =
      if cur.hash ≠ cur.calculateHash h then .done (.invalid hashInvalidMessage i cur)
      else if cur.previousHash ≠ prev.hash then .done (.invalid brokenLinkMessage i cur)
      else validateFrom h chain n (i + 1) := by
  rw [validateFrom, hcur, hprev]

/-- Inside the chain, both blocks read by the loop body exist. -/
theorem exists_cur_prev (chain : List (Block Data)) (i : Nat) (hi : i < chain.length) :
    ∃ cur prev, chain[i]? = some cur ∧ chain[i - 1]? = some prev :=
  ⟨chain[i], chain[i - 1], List.getElem?_eq_getElem hi,
    List.getElem?_eq_getElem (by omega)⟩

/-- The loop returns valid exactly when no index it visits fails a check. -/
theorem validateFrom_valid_iff (h : Host Data) (chain : List (Block Data)) (n i : Nat)
    (hn : i + n = chain.length) :
    validateFrom h chain n i = .done .valid ↔
      ∀ j, i ≤ j → j < chain.length → checksPass h chain j := by
  induction n generalizing i with
  | zero =>
    simp only [validateFrom, true_iff]
    intro j h1 h2
    omega
  | succ n ih =>
    obtain ⟨cur, prev, hcur, hprev⟩ := exists_cur_prev chain i (by omega)
    rw [validateFrom_succ h chain n i cur prev hcur hprev]
    by_cases h1 : cur.hash = cur.calculateHash h
    · by_cases h2 : cur.previousHash = prev.hash
      · simp only [h1, h2, ne_eq, not_true_eq_false, if_false]
        rw [ih (i + 1) (by omega)]
        constructor
        · intro hall j hij hj
          rcases Nat.eq_or_lt_of_le hij with heq | hlt
          · subst heq
            intro c p hc hp
            rw [hcur] at hc
            rw [hprev] at hp
            injection hc with hc
            injection hp with hp
            subst hc
            subst hp
            exact ⟨h1, h2⟩
          · exact hall j hlt hj
        · intro hall j hij hj
          exact hall j (by omega) hj
      · simp only [h1, h2, ne_eq, not_true_eq_false, not_false_eq_true, if_true, if_false]
        constructor
        · intro hc
          injection hc with hc
          cases hc
        · intro hall
          exact absurd (hall i (Nat.le_refl i) (by omega) cur prev hcur hprev).2 h2
    · simp only [h1, ne_eq, not_false_eq_true, if_true]
      constructor
      · intro hc
        injection hc with hc
        cases hc
      · intro hall
        exact absurd (hall i (Nat.le_refl i) (by omega) cur prev hcur hprev).1 h1

/-- The loop stops at the first index whose stored hash is not reproduced. -/
theorem validateFrom_first_hash (h : Host Data) (chain : List (Block Data)) (n i k : Nat)
    (cur : Block Data) (hn : i + n = chain.length) (hik : i ≤ k)
    (hcur : chain[k]? = some cur)
    (hpass : ∀ j, i ≤ j → j < k → checksPass h chain j)
    (hbad : cur.hash ≠ cur.calculateHash h) :
    validateFrom h chain n i = .done (.invalid hashInvalidMessage k cur) := by
  have hk : k < chain.length := by
    rcases Nat.lt_or_ge k chain.length with hlt | hge
    · exact hlt
    · rw [List.getElem?_eq_none hge] at hcur
      cases hcur
  induction n generalizing i with
  | zero => omega
  | succ n ih =>
    obtain ⟨c, p, hc, hp⟩ := exists_cur_prev chain i (by omega)
    rw [validateFrom_succ h chain n i c p hc hp]
    rcases Nat.eq_or_lt_of_le hik with heq | hlt
    · subst heq
      rw [hcur] at hc
      injection hc with hc
      subst hc
      rw [if_pos hbad]
    · obtain ⟨h1, h2⟩ := hpass i (Nat.le_refl i) hlt c p hc hp
      simp only [h1, h2, ne_eq, not_true_eq_false, if_false]
      exact ih (i + 1) (by omega) hlt (fun j hij hjk => hpass j (by omega) hjk)

/-- The loop stops at the first index whose link is broken, when the stored
hash of that block is reproduced. -/
theorem validateFrom_first_link (h : Host Data) (chain : List (Block Data)) (n i k : Nat)
    (cur prev : Block Data) (hn : i + n = chain.length) (hik : i ≤ k)
    (hcur : chain[k]? = some cur) (hprev : chain[k - 1]? = some prev)
    (hpass : ∀ j, i ≤ j → j < k → checksPass h chain j)
    (hgood : cur.hash = cur.calculateHash h) (hbad : cur.previousHash ≠ prev.hash) :
    validateFrom h chain n i = .done (.invalid brokenLinkMessage k cur) := by
  have hk : k < chain.length := by
    rcases Nat.lt_or_ge k chain.length with hlt | hge
    · exact hlt
    · rw [List.getElem?_eq_none hge] at hcur
      cases hcur
  induction n generalizing i with
  | zero => omega
  | succ n ih =>
    obtain ⟨c, p, hc, hp⟩ := exists_cur_prev chain i (by omega)
    rw [validateFrom_succ h chain n i c p hc hp]
    rcases Nat.eq_or_lt_of_le hik with heq | hlt
    · subst heq
      rw [hcur] at hc
      rw [hprev] at hp
      injection hc with hc
      injection hp with hp
      subst hc
      subst hp
      simp only [hgood, hbad, ne_eq, not_true_eq_false, not_false_eq_true, if_true, if_false]
    · obtain ⟨h1, h2⟩ := hpass i (Nat.le_refl i) hlt c p hc hp
      simp only [h1, h2, ne_eq, not_true_eq_false, if_false]
      exact ih (i + 1) (by omega) hlt (fun j hij hjk => hpass j (by omega) hjk)

/-- The loop reads the blocks from index `i` on, and of the block before
index `i` its stored hash only. -/
theorem validateFrom_congr (h : Host Data) (chain chain' : List (Block Data)) (n i : Nat)
    (hsame : ∀ j, i ≤ j → chain'[j]? = chain[j]?)
    (hprev : (chain'[i - 1]?).map (fun b => b.hash) = (chain[i - 1]?).map (fun b => b.hash)) :
    validateFrom h chain' n i = validateFrom h chain n i := by
  induction n generalizing i with
  | zero => rfl
  | succ n ih =>
    have hrec : validateFrom h chain' n (i + 1) = validateFrom h chain n (i + 1) := by
      apply ih
      · intro j hj
        exact hsame j (by omega)
      · rw [Nat.add_sub_cancel, hsame i (Nat.le_refl i)]
    rw [validateFrom, validateFrom, hsame i (Nat.le_refl i)]
    cases hc : chain[i]? with
    | none => rfl
    | some cur =>
      cases hp : chain[i - 1]? with
      | none =>
        rw [hp] at hprev
        cases hp' : chain'[i - 1]? with
        | none => rfl
        | some p' =>
          rw [hp'] at hprev
          cases hprev
      | some p =>
        rw [hp] at hprev
        cases hp' : chain'[i - 1]? with
        | none =>
          rw [hp'] at hprev
          cases hprev
        | some p' =>
          rw [hp'] at hprev
          have hh : p'.hash = p.hash := by
            simpa using hprev
          simp only [hh, hrec]

/-- `isChainValid()` on a chain with a genesis block is the loop from index 1. -/
theorem isChainValid_eq (h : Host Data) (c : Blockchain Data) (hne : c.chain ≠ []) :
    c.isChainValid h = validateFrom h c.chain (c.chain.length - 1) 1 ∧
      1 + (c.chain.length - 1) = c.chain.length := by
  refine ⟨rfl, ?_⟩
  have : 0 < c.chain.length := List.length_pos.mpr hne
  omega

/-- A chain that validates passes both checks at every index from 1 on. -/
theorem checksPass_of_valid (h : Host Data) (c : Blockchain Data)
    (hvalid : c.isChainValid h = .done .valid) (j : Nat) (hj : 1 ≤ j) :
    checksPass h c.chain j := by
  intro cur prev hcur hprev
  have hlen : j < c.chain.length := by
    rcases Nat.lt_or_ge j c.chain.length with hlt | hge
    · exact hlt
    · rw [List.getElem?_eq_none hge] at hcur
      cases hcur
  have hne : c.chain ≠ [] := by
    intro he
    rw [he] at hlen
    cases hlen
  obtain ⟨heq, hn⟩ := isChainValid_eq h c hne
  rw [heq, validateFrom_valid_iff h c.chain _ 1 hn] at hvalid
  exact hvalid j hj hlen cur prev hcur hprev

end Blockchain

/-! ## Construction and mining: the properties -/

variable {Data : Type}

/-- What the constructor stores, for every host: `nonce` is `0` and `hash` is
the digest of the text that ends in `undefined`, while `calculateHash()` on the
returned block digests the text that ends in `0`. -/
theorem Block.new_hash (h : Host Data) (timestamp : Nat) (data : Data) (previousHash : String) :
    (Block.new h timestamp data previousHash).nonce = JsNum.num 0 ∧
    (Block.new h timestamp data previousHash).hash =
      h.sha256 (previousHash ++ toString timestamp ++ h.stringify data ++ "undefined") ∧
    (Block.new h timestamp data previousHash).calculateHash h =
      h.sha256 (previousHash ++ toString timestamp ++ h.stringify data ++ "0") :=
  ⟨rfl, rfl, rfl⟩

/-- C5, evaluated on the genesis block of a server started at 1700000000000 ms:
`new Block(1700000000000, "Genesis Block", "0")` has `nonce = 0`, but its stored
hash is the SHA-256 digest of `01700000000000"Genesis Block"undefined`, not the
digest `calculateHash()` returns on the constructed block. -/
theorem constructor_hash_not_recomputed :
    (Block.new nodeHost 1700000000000 "Genesis Block" "0").nonce = JsNum.num 0 ∧
    (Block.new nodeHost 1700000000000 "Genesis Block" "0").hash =
      "e83125e83526f593e575198a291eeef53076cbff36ed2b0f81c5998504ecd85b" ∧
    (Block.new nodeHost 1700000000000 "Genesis Block" "0").hash =
      Sha256.sha256 "01700000000000\"Genesis Block\"undefined" ∧
    (Block.new nodeHost 1700000000000 "Genesis Block" "0").calculateHash nodeHost =
      "622ed80c14ba0641e9dcc92f61b984121e3dc45ae8e528e316c00cb6449d7173" ∧
    (Block.new nodeHost 1700000000000 "Genesis Block" "0").hash ≠
      (Block.new nodeHost 1700000000000 "Genesis Block" "0").calculateHash nodeHost := by
  decide!

/-- C9: at difficulty 0 `mineBlock` returns without running the loop body,
whatever the block: with no iteration allowed, and with any number allowed, the
result is the block itself, so `nonce` and `hash` are unchanged; a freshly
constructed block keeps `nonce = 0`. The loop condition is false at once because
the empty prefix of any hash equals the empty target. -/
theorem mineBlock_difficulty_zero (h : Host Data) (b : Block Data) (fuel : Nat)
    (timestamp : Nat) (data : Data) (previousHash : String) :
    b.mineBlock h 0 0 = .done b ∧
    b.mineBlock h 0 fuel = .done b ∧
    substring0 b.hash 0 = zeros 0 ∧ zeros 0 = "" ∧
    (Block.new h timestamp data previousHash).mineBlock h 0 fuel =
      .done (Block.new h timestamp data previousHash) ∧
    (Block.new h timestamp data previousHash).nonce = JsNum.num 0 := by
  have hz : ∀ x : Block Data, substring0 x.hash 0 = zeros 0 := fun x => rfl
  have hm : ∀ (x : Block Data) (f : Nat), x.mineBlock h 0 f = .done x := by
    intro x f
    rw [Block.mineBlock_eq, if_neg (by decide), if_pos (hz x)]
  exact ⟨hm b 0, hm b fuel, hz b, rfl, hm _ fuel, rfl⟩

/-- What `addBlock` does when it returns: it pushes one block, built from the
payload, the given time and the hash of the latest block, and mined at the
difficulty of the chain. -/
theorem Blockchain.addBlock_done (h : Host Data) (fuel now : Nat) (data : Data)
    (c c' : Blockchain Data) (hadd : c.addBlock h fuel now data = .done c') :
    ∃ latest newBlock, c.getLatestBlock = some latest ∧
      (Block.new h now data latest.hash).mineBlock h c.difficulty fuel = .done newBlock ∧
      c' = { c with chain := c.chain ++ [newBlock] } := by
  unfold Blockchain.addBlock at hadd
  cases hl : c.getLatestBlock with
  | none =>
    rw [hl] at hadd
    cases hadd
  | some latest =>
    rw [hl] at hadd
    simp only [] at hadd
    cases hm : (Block.new h now data latest.hash).mineBlock h c.difficulty fuel with
    | done nb =>
      rw [hm] at hadd
      injection hadd with hc
      exact ⟨latest, nb, rfl, hm, hc.symm⟩
    | raise e =>
      rw [hm] at hadd
      cases hadd
    | timeout =>
      rw [hm] at hadd
      cases hadd

/-- C4: when `mineBlock(d)` returns, the stored hash has at least `d` characters,
each of its first `d` characters is the zero character, and its prefix of length
`d` is the string of `d` zeros; so the block pushed by a returning `addBlock` has
this at the difficulty of the chain. The genesis block is the constructed block,
not mined: on a server started at 1700000000000 ms its hash does not begin with
the two zeros of the default difficulty. -/
theorem mined_hash_meets_target (h : Host Data) (d fuel : Nat) (b b' : Block Data)
    (hrun : b.mineBlock h d fuel = .done b') :
    (d ≤ b'.hash.length ∧ (∀ i, i < d → b'.hash.data[i]? = some '0') ∧
      substring0 b'.hash d = zeros d) ∧
    (∀ (c c' : Blockchain Data) (fuel' now : Nat) (data : Data),
      c.addBlock h fuel' now data = .done c' →
      ∃ newBlock, c'.chain = c.chain ++ [newBlock] ∧
        c.difficulty ≤ newBlock.hash.length ∧
        (∀ i, i < c.difficulty → newBlock.hash.data[i]? = some '0') ∧
        substring0 newBlock.hash c.difficulty = zeros c.difficulty) ∧
    (∀ now, (Blockchain.new h now).chain = [Block.new h now (h.text "Genesis Block") "0"]) ∧
    (Blockchain.new nodeHost 1700000000000).difficulty = 2 ∧
    substring0 (Blockchain.createGenesisBlock nodeHost 1700000000000).hash 2 ≠ zeros 2 := by
  have key : ∀ (x x' : Block Data) (k f : Nat), x.mineBlock h k f = .done x' →
      k ≤ x'.hash.length ∧ (∀ i, i < k → x'.hash.data[i]? = some '0') ∧
        substring0 x'.hash k = zeros k := by
    intro x x' k f hx
    have ht := (Block.mineBlock_done_target h k f x x' hx).1
    obtain ⟨h1, h2⟩ := (substring0_eq_zeros_iff x'.hash k).mp ht
    exact ⟨h1, h2, ht⟩
  refine ⟨key b b' d fuel hrun, ?_, fun _ => rfl, rfl, by decide!⟩
  intro c c' fuel' now data hadd
  obtain ⟨latest, nb, _, hm, hc⟩ := Blockchain.addBlock_done h fuel' now data c c' hadd
  refine ⟨nb, ?_, key _ nb c.difficulty fuel' hm⟩
  rw [hc]

/-- C4 at a concrete run: mining `new Block(1700000000001, "block 11", <genesis hash>)`
at difficulty 2 returns after eight runs of the loop body, with a hash that begins
with two zeros. -/
theorem mined_hash_meets_target_witness :
    (Block.new nodeHost 1700000000001 "block 11"
        "e83125e83526f593e575198a291eeef53076cbff36ed2b0f81c5998504ecd85b").mineBlock
      nodeHost 2 8 =
      .done { timestamp := 1700000000001
              data := "block 11"
              previousHash := "e83125e83526f593e575198a291eeef53076cbff36ed2b0f81c5998504ecd85b"
              hash := "00bd6cb005cbab3056a7ee98b6a2903c79efec01691374bda40024765a5703e7"
              nonce := JsNum.num 8 } ∧
    substring0 "00bd6cb005cbab3056a7ee98b6a2903c79efec01691374bda40024765a5703e7" 2 = zeros 2 :=
  have hrun : (Block.new nodeHost 1700000000001 "block 11"
        "e83125e83526f593e575198a291eeef53076cbff36ed2b0f81c5998504ecd85b").mineBlock
      nodeHost 2 8 =
      .done { timestamp := 1700000000001
              data := "block 11"
              previousHash := "e83125e83526f593e575198a291eeef53076cbff36ed2b0f81c5998504ecd85b"
              hash := "00bd6cb005cbab3056a7ee98b6a2903c79efec01691374bda40024765a5703e7"
              nonce := JsNum.num 8 } := by decide!
  ⟨hrun, (mined_hash_meets_target nodeHost 2 8 _ _ hrun).1.2.2⟩

/-! ## Append -/

/-- The latest block of a chain that just received `b` is `b`. -/
theorem Blockchain.getLatestBlock_push (chain : List (Block Data)) (d : Nat) (b : Block Data) :
    ({ chain := chain ++ [b], difficulty := d } : Blockchain Data).getLatestBlock = some b := by
  unfold Blockchain.getLatestBlock
  simp only [List.length_append, List.length_singleton, Nat.add_sub_cancel]
  exact List.getElem?_concat_length chain b

/-- C8: when `addBlock` returns, the chain (which then was not empty) is one
block longer, every earlier index holds the block it held, in the same order,
the difficulty is the same, and the new last block carries the given payload
and, as `previousHash`, the hash of the block `getLatestBlock()` returned before
the call. -/
theorem addBlock_frame (h : Host Data) (fuel now : Nat) (data : Data)
    (c c' : Blockchain Data) (hadd : c.addBlock h fuel now data = .done c') :
    c.chain ≠ [] ∧
    c'.chain.length = c.chain.length + 1 ∧
    (∀ i, i < c.chain.length → c'.chain[i]? = c.chain[i]?) ∧
    c'.chain.take c.chain.length = c.chain ∧
    c'.difficulty = c.difficulty ∧
    ∃ latest newBlock, c.getLatestBlock = some latest ∧
      c'.chain[c.chain.length]? = some newBlock ∧
      c'.getLatestBlock = some newBlock ∧
      newBlock.data = data ∧ newBlock.previousHash = latest.hash ∧
      newBlock.timestamp = now := by
  obtain ⟨latest, nb, hl, hm, hc⟩ := Blockchain.addBlock_done h fuel now data c c' hadd
  obtain ⟨hts, hdata, hprev⟩ := Block.mineBlock_done_frame h c.difficulty fuel _ nb hm
  subst hc
  refine ⟨?_, ?_, ?_, ?_, rfl, latest, nb, hl, ?_, ?_, hdata, hprev, hts⟩
  · intro he
    unfold Blockchain.getLatestBlock at hl
    rw [he] at hl
    cases hl
  · simp only [List.length_append, List.length_singleton]
  · intro i hi
    exact List.getElem?_append_left hi
  · exact List.take_left c.chain [nb]
  · exact List.getElem?_concat_length c.chain nb
  · exact Blockchain.getLatestBlock_push c.chain c.difficulty nb

/-- C8 at a concrete run: `addBlock("block 11")` on the fresh chain of a server
started at 1700000000000 ms returns, after eight runs of the mining loop, the
first two blocks of `sampleChain`; the chain has grown from one block to two and
the genesis block is still at index 0. -/
theorem addBlock_frame_witness :
    (Blockchain.new nodeHost 1700000000000).addBlock nodeHost 8 1700000000001 "block 11" =
      .done { chain := sampleChain.chain.take 2, difficulty := 2 } ∧
    (sampleChain.chain.take 2).length = (Blockchain.new nodeHost 1700000000000).chain.length + 1 ∧
    (sampleChain.chain.take 2).take 1 = (Blockchain.new nodeHost 1700000000000).chain :=
  have hrun : (Blockchain.new nodeHost 1700000000000).addBlock nodeHost 8 1700000000001
      "block 11" = .done { chain := sampleChain.chain.take 2, difficulty := 2 } := by decide!
  have hframe := addBlock_frame nodeHost 8 1700000000001 "block 11"
    (Blockchain.new nodeHost 1700000000000)
    { chain := sampleChain.chain.take 2, difficulty := 2 } hrun
  ⟨hrun, hframe.2.1, hframe.2.2.2.1⟩

/-- On a server started at 1700000000000 ms, `addBlock("block 435")` one
millisecond later returns with no run of the mining loop, however many are
allowed: the hash stored by the constructor already begins with two zeros. -/
theorem staleChain_built (fuel : Nat) :
    (Blockchain.new nodeHost 1700000000000).addBlock nodeHost fuel 1700000000001 "block 435" =
      .done staleChain := by
  have hl : (Blockchain.new nodeHost 1700000000000).getLatestBlock =
      some (Blockchain.createGenesisBlock nodeHost 1700000000000) := rfl
  unfold Blockchain.addBlock
  rw [hl]
  simp only []
  rw [Block.mineBlock_eq, if_neg (by decide), if_pos (by decide!)]
  simp only []
  decide!

/-- C3, evaluated: on a server started at 1700000000000 ms, `addBlock("block 435")`
one millisecond later returns, and the block it pushed has `nonce = 0` and a
stored hash that begins `000dd0b8`, while `calculateHash()` on that block
returns a digest that begins `cff6a65d`. -/
theorem appended_block_hash_not_recomputed (fuel : Nat) :
    ∃ c newBlock,
      (Blockchain.new nodeHost 1700000000000).addBlock nodeHost fuel 1700000000001
        "block 435" = .done c ∧
      c.getLatestBlock = some newBlock ∧
      newBlock.nonce = JsNum.num 0 ∧
      newBlock.hash = "000dd0b8b34877edca98c9ad717a1669382d76a0b57e023d278af134efb60be3" ∧
      newBlock.calculateHash nodeHost =
        "cff6a65db17a3093ff318e6471d4a736877371dd78d370ebc8fa7f4266e7f494" ∧
      newBlock.hash ≠ newBlock.calculateHash nodeHost :=
  ⟨staleChain,
    { timestamp := 1700000000001
      data := "block 435"
      previousHash := "e83125e83526f593e575198a291eeef53076cbff36ed2b0f81c5998504ecd85b"
      hash := "000dd0b8b34877edca98c9ad717a1669382d76a0b57e023d278af134efb60be3"
      nonce := JsNum.num 0 },
    staleChain_built fuel, by decide!, rfl, rfl, by decide!, by decide!⟩

/-- C1, evaluated: the chain built by `new Blockchain()` at 1700000000000 ms and
`addBlock("block 435")` one millisecond later, with no edit of any block, is
reported invalid by `isChainValid()`: hash-invalid at index 1. -/
theorem untampered_chain_reported_invalid (fuel : Nat) :
    (Blockchain.new nodeHost 1700000000000).addBlock nodeHost fuel 1700000000001 "block 435" =
      .done staleChain ∧
    staleChain.isChainValid nodeHost =
      .done (.invalid hashInvalidMessage 1
        { timestamp := 1700000000001
          data := "block 435"
          previousHash := "e83125e83526f593e575198a291eeef53076cbff36ed2b0f81c5998504ecd85b"
          hash := "000dd0b8b34877edca98c9ad717a1669382d76a0b57e023d278af134efb60be3"
          nonce := JsNum.num 0 }) :=
  ⟨staleChain_built fuel, by decide!⟩

/-! ## Validation: the properties -/

/-- Overwriting the block at index `i` leaves the checks at the indices before
`i` as they were. -/
theorem Blockchain.checksPass_set_of_lt (h : Host Data) (chain : List (Block Data))
    (i j : Nat) (b : Block Data) (hji : j < i)
    (hpass : Blockchain.checksPass h chain j) :
    Blockchain.checksPass h (chain.set i b) j := by
  intro cur prev hc hp
  rw [List.getElem?_set_ne (by omega)] at hc hp
  exact hpass cur prev hc hp

/-- An index that holds a block is inside the chain. -/
theorem lt_length_of_getElem? (chain : List (Block Data)) (i : Nat) (b : Block Data)
    (hb : chain[i]? = some b) : i < chain.length := by
  rcases Nat.lt_or_ge i chain.length with hlt | hge
  · exact hlt
  · rw [List.getElem?_eq_none hge] at hb
    cases hb

/-- C2: on a chain that validates, overwrite the payload of the block at an
index `i ≥ 1` inside the chain, as the tamper endpoint does, with a payload for
which `calculateHash()` of the block no longer returns the stored hash. Then
`isChainValid()` returns the hash-invalid report at index `i`, with the
overwritten block; that block differs from the old one in its payload only. -/
theorem tamper_detected (h : Host Data) (c : Blockchain Data) (i : Nat) (b : Block Data)
    (newData : Data) (hvalid : c.isChainValid h = .done .valid) (hi : 1 ≤ i)
    (hb : c.chain[i]? = some b)
    (hstale : ({ b with data := newData } : Block Data).calculateHash h ≠ b.hash) :
    (c.tamper i newData).isChainValid h =
      .done (.invalid hashInvalidMessage i { b with data := newData }) ∧
    (c.tamper i newData).chain = c.chain.set i { b with data := newData } ∧
    (c.tamper i newData).chain[i]? = some { b with data := newData } := by
  have hlen : i < c.chain.length := lt_length_of_getElem? c.chain i b hb
  have ht : c.tamper i newData = { c with chain := c.chain.set i { b with data := newData } } := by
    unfold Blockchain.tamper
    rw [hb]
  have hcur : (c.chain.set i { b with data := newData })[i]? = some { b with data := newData } :=
    List.getElem?_set_self hlen
  rw [ht]
  refine ⟨?_, rfl, hcur⟩
  unfold Blockchain.isChainValid
  apply Blockchain.validateFrom_first_hash h _ _ 1 i _ _ hi hcur
  · intro j hj hji
    exact Blockchain.checksPass_set_of_lt h c.chain i j _ hji
      (Blockchain.checksPass_of_valid h c hvalid j hj)
  · exact fun heq => hstale heq.symm
  · simp only [List.length_set]
    omega

/-- C2 on the instance of the specification: in the three-block `sampleChain`,
which validates, the payload of block 1 is overwritten with `"evil"`; validation
then reports hash-invalid at index 1. -/
theorem tamper_detected_witness :
    sampleChain.isChainValid nodeHost = .done .valid ∧
    (sampleChain.tamper 1 "evil").isChainValid nodeHost =
      .done (.invalid hashInvalidMessage 1
        { timestamp := 1700000000001
          data := "evil"
          previousHash := "e83125e83526f593e575198a291eeef53076cbff36ed2b0f81c5998504ecd85b"
          hash := "00bd6cb005cbab3056a7ee98b6a2903c79efec01691374bda40024765a5703e7"
          nonce := JsNum.num 8 }) :=
  have hvalid : sampleChain.isChainValid nodeHost = .done .valid := by decide!
  ⟨hvalid,
    (tamper_detected nodeHost sampleChain 1
      { timestamp := 1700000000001
        data := "block 11"
        previousHash := "e83125e83526f593e575198a291eeef53076cbff36ed2b0f81c5998504ecd85b"
        hash := "00bd6cb005cbab3056a7ee98b6a2903c79efec01691374bda40024765a5703e7"
        nonce := JsNum.num 8 }
      "evil" hvalid (by decide) rfl (by decide!)).1⟩

/-- C6: when every index from 1 up to `i - 1` passes both checks and the block
at index `i ≥ 1` fails both (its stored hash is not reproduced and its
`previousHash` is not the hash of the block before it), `isChainValid()` returns
the hash-invalid report at index `i`, and so not the broken-link report. -/
theorem hash_check_reported_first (h : Host Data) (c : Blockchain Data) (i : Nat)
    (cur prev : Block Data) (hi : 1 ≤ i)
    (hcur : c.chain[i]? = some cur) (hprev : c.chain[i - 1]? = some prev)
    (hpass : ∀ j, 1 ≤ j → j < i → Blockchain.checksPass h c.chain j)
    (hhash : cur.hash ≠ cur.calculateHash h) (hlink : cur.previousHash ≠ prev.hash) :
    c.isChainValid h = .done (.invalid hashInvalidMessage i cur) ∧
    ∀ k b, c.isChainValid h ≠ .done (.invalid brokenLinkMessage k b) := by
  have hlen : i < c.chain.length := lt_length_of_getElem? c.chain i cur hcur
  have hres : c.isChainValid h = .done (.invalid hashInvalidMessage i cur) := by
    unfold Blockchain.isChainValid
    exact Blockchain.validateFrom_first_hash h c.chain _ 1 i cur (by omega) hi hcur hpass hhash
  refine ⟨hres, ?_⟩
  intro k b heq
  rw [hres] at heq
  injection heq with heq
  injection heq with hmsg
  revert hmsg
  decide!

/-- C6 at a concrete chain: `sampleChain` with block 2 given the `previousHash`
`"unrelated"` and its hash left as it was. Block 1 passes both checks, block 2
fails both, and the report is hash-invalid at index 2. -/
theorem hash_check_reported_first_witness :
    ({ chain := sampleChain.chain.set 2
        { timestamp := 1700000000002
          data := "block 175"
          previousHash := "unrelated"
          hash := "00543a8f43ca90985847a10e63c835af3c667e58c463c59ae9c594f7e7c9601c"
          nonce := JsNum.num 1 }
       difficulty := 2 } : Blockchain String).isChainValid nodeHost =
      .done (.invalid hashInvalidMessage 2
        { timestamp := 1700000000002
          data := "block 175"
          previousHash := "unrelated"
          hash := "00543a8f43ca90985847a10e63c835af3c667e58c463c59ae9c594f7e7c9601c"
          nonce := JsNum.num 1 }) :=
  (hash_check_reported_first nodeHost
    { chain := sampleChain.chain.set 2
        { timestamp := 1700000000002
          data := "block 175"
          previousHash := "unrelated"
          hash := "00543a8f43ca90985847a10e63c835af3c667e58c463c59ae9c594f7e7c9601c"
          nonce := JsNum.num 1 }
      difficulty := 2 }
    2
    { timestamp := 1700000000002
      data := "block 175"
      previousHash := "unrelated"
      hash := "00543a8f43ca90985847a10e63c835af3c667e58c463c59ae9c594f7e7c9601c"
      nonce := JsNum.num 1 }
    { timestamp := 1700000000001
      data := "block 11"
      previousHash := "e83125e83526f593e575198a291eeef53076cbff36ed2b0f81c5998504ecd85b"
      hash := "00bd6cb005cbab3056a7ee98b6a2903c79efec01691374bda40024765a5703e7"
      nonce := JsNum.num 8 }
    (by decide) rfl rfl (by decide!) (by decide!) (by decide!)).1

/-- C7: on a chain that validates, give the block at an index `i ≥ 1` inside the
chain a `previousHash` that is not the hash of the block before it, then store
`calculateHash()` of the edited block as its hash. Then `isChainValid()` returns
the broken-link report at index `i`, with the edited block: the first check
passes at `i`, the second fails there, and no earlier index fails. -/
theorem broken_link_detected (h : Host Data) (c : Blockchain Data) (i : Nat)
    (b prev : Block Data) (value : String)
    (hvalid : c.isChainValid h = .done .valid) (hi : 1 ≤ i)
    (hb : c.chain[i]? = some b) (hprev : c.chain[i - 1]? = some prev)
    (hne : value ≠ prev.hash) :
    (Blockchain.relink h c i value).isChainValid h =
      .done (.invalid brokenLinkMessage i (Blockchain.relinked h b value)) ∧
    (Blockchain.relinked h b value).hash = (Blockchain.relinked h b value).calculateHash h ∧
    (Blockchain.relinked h b value).previousHash ≠ prev.hash ∧
    (∀ j, 1 ≤ j → j < i → Blockchain.checksPass h (Blockchain.relink h c i value).chain j) := by
  have hlen : i < c.chain.length := lt_length_of_getElem? c.chain i b hb
  have ht : Blockchain.relink h c i value =
      { c with chain := c.chain.set i (Blockchain.relinked h b value) } := by
    unfold Blockchain.relink
    rw [hb]
  have hpass : ∀ j, 1 ≤ j → j < i →
      Blockchain.checksPass h (c.chain.set i (Blockchain.relinked h b value)) j := by
    intro j hj hji
    exact Blockchain.checksPass_set_of_lt h c.chain i j _ hji
      (Blockchain.checksPass_of_valid h c hvalid j hj)
  rw [ht]
  refine ⟨?_, rfl, hne, hpass⟩
  unfold Blockchain.isChainValid
  apply Blockchain.validateFrom_first_link h _ _ 1 i _ prev _ hi
    (List.getElem?_set_self hlen) _ hpass rfl hne
  · simp only [List.length_set]
    omega
  · rw [List.getElem?_set_ne (by omega)]
    exact hprev

/-- C7 on the instance of the specification: in the three-block `sampleChain`,
block 2 gets the `previousHash` `"unrelated"` and its hash is recomputed;
validation reports broken-link at index 2. -/
theorem broken_link_detected_witness :
    sampleChain.isChainValid nodeHost = .done .valid ∧
    (Blockchain.relink nodeHost sampleChain 2 "unrelated").isChainValid nodeHost =
      .done (.invalid brokenLinkMessage 2
        { timestamp := 1700000000002
          data := "block 175"
          previousHash := "unrelated"
          hash := "a71b7fbdaa0dc087a0f6fdf5ba902c08d949eb75950f4081e5c89bf28e91ba8b"
          nonce := JsNum.num 1 }) :=
  have hvalid : sampleChain.isChainValid nodeHost = .done .valid := by decide!
  have hrun := (broken_link_detected nodeHost sampleChain 2
      { timestamp := 1700000000002
        data := "block 175"
        previousHash := "00bd6cb005cbab3056a7ee98b6a2903c79efec01691374bda40024765a5703e7"
        hash := "00543a8f43ca90985847a10e63c835af3c667e58c463c59ae9c594f7e7c9601c"
        nonce := JsNum.num 1 }
      { timestamp := 1700000000001
        data := "block 11"
        previousHash := "e83125e83526f593e575198a291eeef53076cbff36ed2b0f81c5998504ecd85b"
        hash := "00bd6cb005cbab3056a7ee98b6a2903c79efec01691374bda40024765a5703e7"
        nonce := JsNum.num 8 }
      "unrelated" hvalid (by decide) rfl rfl (by decide!)).1
  ⟨hvalid, hrun.trans (by decide!)⟩

/-- A chain without a second block validates. -/
theorem Blockchain.isChainValid_short (h : Host Data) (c : Blockchain Data)
    (hlen : c.chain.length ≤ 1) : c.isChainValid h = .done .valid := by
  unfold Blockchain.isChainValid
  have : c.chain.length - 1 = 0 := by omega
  rw [this]
  rfl

/-- Validation in terms of the checks: valid exactly when every index from 1 on
passes both. -/
theorem Blockchain.isChainValid_valid_iff (h : Host Data) (c : Blockchain Data) :
    c.isChainValid h = .done .valid ↔
      ∀ i, 1 ≤ i → i < c.chain.length → Blockchain.checksPass h c.chain i := by
  by_cases hne : c.chain = []
  · constructor
    · intro _ i hi hlt
      rw [hne] at hlt
      cases hlt
    · intro _
      apply Blockchain.isChainValid_short
      rw [hne]
      exact Nat.zero_le 1
  · obtain ⟨heq, hn⟩ := Blockchain.isChainValid_eq h c hne
    rw [heq]
    exact Blockchain.validateFrom_valid_iff h c.chain _ 1 hn

/-- C10: for every chain, edited or not, `isChainValid()` returns valid exactly
when every index `i` with `1 ≤ i < chain.length` passes both checks (stored hash
reproduced by `calculateHash()`, `previousHash` equal to the hash of the block
before). Otherwise it returns an invalid report whose index is the least index
from 1 on that fails a check, whose block is the block at that index, and whose
message names the first of the two checks that fails there. Index 0 is never
reported, a chain of one block is valid, and the result does not depend on any
property of the genesis block other than its stored hash. -/
theorem isChainValid_characterisation (h : Host Data) (c : Blockchain Data) :
    (c.isChainValid h = .done .valid ↔
      ∀ i, 1 ≤ i → i < c.chain.length → Blockchain.checksPass h c.chain i) ∧
    (c.isChainValid h ≠ .done .valid →
      ∃ message i cur prev,
        c.isChainValid h = .done (.invalid message i cur) ∧
        1 ≤ i ∧ c.chain[i]? = some cur ∧ c.chain[i - 1]? = some prev ∧
        ¬ Blockchain.checksPass h c.chain i ∧
        (∀ j, 1 ≤ j → j < i → Blockchain.checksPass h c.chain j) ∧
        (cur.hash ≠ cur.calculateHash h → message = hashInvalidMessage) ∧
        (cur.hash = cur.calculateHash h →
          cur.previousHash ≠ prev.hash ∧ message = brokenLinkMessage)) ∧
    (∀ (g : Block Data) (d : Nat),
      ({ chain := [g], difficulty := d } : Blockchain Data).isChainValid h = .done .valid) ∧
    (∀ (g g' : Block Data) (rest : List (Block Data)) (d : Nat), g'.hash = g.hash →
      ({ chain := g' :: rest, difficulty := d } : Blockchain Data).isChainValid h =
        ({ chain := g :: rest, difficulty := d } : Blockchain Data).isChainValid h) := by
  refine ⟨Blockchain.isChainValid_valid_iff h c, ?_, ?_, ?_⟩
  · intro hinv
    rw [Ne, Blockchain.isChainValid_valid_iff] at hinv
    have hex : ∃ k, 1 ≤ k ∧ k < c.chain.length ∧ ¬ Blockchain.checksPass h c.chain k := by
      by_contra hno
      apply hinv
      intro i hi hlt
      by_contra hfail
      exact hno ⟨i, hi, hlt, hfail⟩
    obtain ⟨hk1, hklen, hkfail⟩ := Nat.find_spec hex
    have hmin : ∀ j, 1 ≤ j → j < Nat.find hex → Blockchain.checksPass h c.chain j := by
      intro j hj hjk
      by_contra hfail
      exact Nat.find_min hex hjk ⟨hj, by omega, hfail⟩
    generalize Nat.find hex = k at hk1 hklen hkfail hmin
    obtain ⟨cur, prev, hcur, hprev⟩ := Blockchain.exists_cur_prev c.chain k hklen
    have hn : 1 + (c.chain.length - 1) = c.chain.length := by omega
    by_cases hhash : cur.hash = cur.calculateHash h
    · have hlink : cur.previousHash ≠ prev.hash := by
        intro hl
        apply hkfail
        intro c1 p1 hc1 hp1
        rw [hcur] at hc1
        rw [hprev] at hp1
        cases hc1
        cases hp1
        exact ⟨hhash, hl⟩
      refine ⟨brokenLinkMessage, k, cur, prev, ?_, hk1, hcur, hprev, hkfail, hmin,
        fun hne => absurd hhash hne, fun _ => ⟨hlink, rfl⟩⟩
      unfold Blockchain.isChainValid
      exact Blockchain.validateFrom_first_link h c.chain _ 1 k cur prev hn hk1 hcur hprev hmin
        hhash hlink
    · refine ⟨hashInvalidMessage, k, cur, prev, ?_, hk1, hcur, hprev, hkfail, hmin,
        fun _ => rfl, fun he => absurd he hhash⟩
      unfold Blockchain.isChainValid
      exact Blockchain.validateFrom_first_hash h c.chain _ 1 k cur hn hk1 hcur hmin hhash
  · intro g d
    exact Blockchain.isChainValid_short h _ (Nat.le_refl 1)
  · intro g g' rest d hg
    unfold Blockchain.isChainValid
    simp only [List.length_cons]
    apply Blockchain.validateFrom_congr
    · intro j hj
      obtain ⟨m, rfl⟩ : ∃ m, j = m + 1 := ⟨j - 1, by omega⟩
      simp only [List.getElem?_cons_succ]
    · simp only [Nat.sub_self, List.getElem?_cons_zero, Option.map_some', hg]

/-- Validation on the sample chains: `sampleChain` is valid; with the payload of
block 1 overwritten the first failing index is 1, although block 2 is untouched. -/
theorem isChainValid_sample :
    sampleChain.isChainValid nodeHost = .done .valid ∧
    (∀ i, 1 ≤ i → i < sampleChain.chain.length →
      Blockchain.checksPass nodeHost sampleChain.chain i) ∧
    ¬ Blockchain.checksPass nodeHost (sampleChain.tamper 1 "evil").chain 1 := by
  decide!

/-! ## Untouched chains

The chain of a new `Blockchain` validates, and an append keeps a chain valid
whenever the mining loop runs its body at least once. When the hash stored by
the constructor already meets the target, the loop body does not run and the
pushed block keeps that hash (`staleChain_built`). -/

/-- The chain of `new Blockchain()` validates. -/
theorem Blockchain.isChainValid_new (h : Host Data) (now : Nat) :
    (Blockchain.new h now).isChainValid h = .done .valid :=
  Blockchain.isChainValid_short h _ (Nat.le_refl 1)

/-- An append on a valid chain returns a valid chain when the hash stored by the
constructor of the new block does not meet the target. -/
theorem Blockchain.isChainValid_addBlock (h : Host Data) (fuel now : Nat) (data : Data)
    (c c' : Blockchain Data) (hvalid : c.isChainValid h = .done .valid)
    (hadd : c.addBlock h fuel now data = .done c')
    (hiter : ∀ latest, c.getLatestBlock = some latest →
      substring0 (Block.new h now data latest.hash).hash c.difficulty ≠ zeros c.difficulty) :
    c'.isChainValid h = .done .valid := by
  obtain ⟨latest, nb, hl, hm, hc⟩ := Blockchain.addBlock_done h fuel now data c c' hadd
  obtain ⟨_, _, hprev⟩ := Block.mineBlock_done_frame h c.difficulty fuel _ nb hm
  have hhash : nb.hash = nb.calculateHash h := by
    rcases Block.mineBlock_done_cases h c.difficulty fuel _ nb hm with ⟨_, hz⟩ | ⟨_, hok⟩
    · exact absurd hz (hiter latest hl)
    · exact hok
  subst hc
  rw [Blockchain.isChainValid_valid_iff]
  intro i hi hlt
  simp only [List.length_append, List.length_singleton] at hlt
  intro cur prev hcur hp
  by_cases hin : i < c.chain.length
  · rw [List.getElem?_append_left hin] at hcur
    rw [List.getElem?_append_left (by omega)] at hp
    exact Blockchain.checksPass_of_valid h c hvalid i hi cur prev hcur hp
  · have hieq : i = c.chain.length := by omega
    subst hieq
    rw [List.getElem?_concat_length] at hcur
    rw [List.getElem?_append_left (by omega)] at hp
    unfold Blockchain.getLatestBlock at hl
    rw [hl] at hp
    cases hcur
    cases hp
    exact ⟨hhash, hprev⟩

end SampleBC
